import Mathlib

/-!
Verification development for the DECL streaming-UI engine: shallow embedding of
the JSON extraction, store accessors, variable resolution, delta aggregation,
stream orchestration and node rendering code, together with theorems settling
the specification claims.

Modelling conventions:
* JavaScript values are embedded as `JValue`.  `undef` models `undefined`,
  `null` models `null`.  Objects are association lists in insertion order
  (matching JS string-keyed property order); arrays carry their element list
  plus an expando-property list (JS arrays are objects and accept non-index
  properties).
* JSON numbers are modelled as integers (all numbers appearing in the claims
  and in the repository's wire format are integers).
* Strings are treated as sequences of characters; all texts in play are ASCII,
  so JS UTF-16 indices coincide with character indices.
* Throwing code is modelled by `Option`/`Except`; total Lean functions witness
  the "never throws" parts of claims.
-/

namespace GenUI

/-- A JavaScript/JSON runtime value, as produced by JSON.parse and manipulated
by the DECL services. -/
inductive JValue where
  | undef : JValue
  | null : JValue
  | bool (b : Bool) : JValue
  | num (n : Int) : JValue
  | str (s : String) : JValue
  | arr (elems : List JValue) (props : List (String × JValue)) : JValue
  | obj (fields : List (String × JValue)) : JValue

/-- Association-list lookup for object fields (first match; JS objects have
unique keys, and all operations below preserve uniqueness). -/
def lookupField : List (String × JValue) → String → Option JValue
  | [], _ => none
  | (k, v) :: rest, key => if k = key then some v else lookupField rest key

/-- JS property assignment on an association list: an existing key keeps its
slot (insertion order preserved), a new key is appended. -/
def objInsert : List (String × JValue) → String → JValue → List (String × JValue)
  | [], key, v => [(key, v)]
  | (k, w) :: rest, key, v =>
      if k = key then (k, v) :: rest else (k, w) :: objInsert rest key v

/-- Whether a string is a canonical array-index property name in JS
("0", "1", ...; no leading zeros, no sign). -/
def isIndexString (s : String) : Bool :=
  match s.data with
  | [] => false
  | c :: rest => c.isDigit && rest.all Char.isDigit && (rest.isEmpty || c != '0')

/-- Numeric value of a digit string. -/
def toIndex (s : String) : Nat :=
  s.data.foldl (fun a c => a * 10 + (c.toNat - 48)) 0

/-- typeof x === 'object' && x !== null (true exactly for objects and arrays). -/
def isObjectLike : JValue → Bool
  | .obj _ => true
  | .arr _ _ => true
  | _ => false

/-- Property read current[key]: object fields, array elements by index string
or array expando properties; undefined otherwise. -/
def jGetProp : JValue → String → JValue
  | .obj fs, key => (lookupField fs key).getD .undef
  | .arr es ps, key =>
      if isIndexString key then es.getD (toIndex key) .undef
      else (lookupField ps key).getD .undef
  | _, _ => (.undef)

/-- The JS (key in current) test on objects and arrays. -/
def jHasProp : JValue → String → Bool
  | .obj fs, key => (lookupField fs key).isSome
  | .arr es ps, key =>
      (isIndexString key && decide (toIndex key < es.length)) || (lookupField ps key).isSome
  | _, _ => false

/-- Property write current[key] = v on an object-like value (identity on
primitives, which is unreachable under the callers' guards).  Writing past the
end of an array pads with undefined, as JS sparse assignment reads back. -/
def jSetProp : JValue → String → JValue → JValue
  | .obj fs, key, v => .obj (objInsert fs key v)
  | .arr es ps, key, v =>
      if isIndexString key then
        let i := toIndex key
        if i < es.length then .arr (es.set i v) ps
        else .arr ((es ++ List.replicate (i - es.length) .undef) ++ [v]) ps
      else .arr es (objInsert ps key v)
  | w, _, _ => w

/-- JS truthiness for the value shapes in play. -/
def truthy : JValue → Bool
  | .undef => false
  | .null => false
  | .bool b => b
  | .num n => n != 0
  | .str s => !s.isEmpty
  | .arr _ _ => true
  | .obj _ => true

/-- JS whitespace for trimming purposes (the ASCII members suffice here). -/
def isWsChar (c : Char) : Bool :=
  c = ' ' || c = '\t' || c = '\n' || c = '\r'

/-- String.prototype.trim modelled on character lists. -/
def trimChars (cs : List Char) : List Char :=
  ((cs.dropWhile isWsChar).reverse.dropWhile isWsChar).reverse

/-- String.prototype.trim. -/
def trimString (s : String) : String :=
  String.mk (trimChars s.data)

/-- path.split('.') — single-character split, JS semantics (an empty input
yields [""], adjacent separators yield empty segments). -/
def splitOnDotGo : List Char → List Char → List String
  | [], acc => [String.mk acc.reverse]
  | c :: rest, acc =>
      if c = '.' then String.mk acc.reverse :: splitOnDotGo rest []
      else splitOnDotGo rest (c :: acc)

/-- path.split('.') on a string. -/
def splitOnDot (s : String) : List String :=
  splitOnDotGo s.data []

/-- value.startsWith(c) for a single character. -/
def strStartsWith (s : String) (c : Char) : Bool :=
  match s.data with
  | [] => false
  | c0 :: _ => c0 = c

/-- value.endsWith(c) for a single character. -/
def strEndsWith (s : String) (c : Char) : Bool :=
  match s.data.getLast? with
  | none => false
  | some c0 => c0 = c

/-- path.includes(c) for a single character. -/
def strContainsChar (s : String) (c : Char) : Bool :=
  s.data.contains c

/-- getNestedValue's walk over an already-split path: before each step the
code returns undefined when the current value is null, undefined or not an
object; afterwards it indexes with the segment. -/
def getNestedParts : JValue → List String → JValue
  | cur, [] => cur
  | cur, p :: rest =>
      if isObjectLike cur then getNestedParts (jGetProp cur p) rest else (.undef)

/-- getNestedValue(obj, path) from the store-path helpers: split on '.', walk,
undefined on any missing or non-object intermediate.  Total, hence it never
throws. -/
def getNestedValue (store : JValue) (path : String) : JValue :=
  getNestedParts store (splitOnDot path)

/-- The tree-level effect of the mutating setNestedValue walk: for every
segment but the last, a missing or non-object child is replaced by a fresh
empty object; the last segment is assigned.  (Heap-level aliasing of the
source's in-place mutation is modelled separately for claim C3.) -/
def setNestedParts : JValue → List String → JValue → JValue
  | cur, [], _ => cur
  | cur, [last], v => jSetProp cur last v
  | cur, p :: q :: rest, v =>
      let child := jGetProp cur p
      let childC := if isObjectLike child then child else .obj []
      jSetProp cur p (setNestedParts childC (q :: rest) v)

/-- setNestedValue(obj, path, value) as a store-to-store function. -/
def setNestedValue (store : JValue) (path : String) (v : JValue) : JValue :=
  setNestedParts store (splitOnDot path) v

/-- value.slice(1, -1) on a string: drop the first and last character. -/
def sliceInner (s : String) : String :=
  String.mk ((s.data.drop 1).dropLast)

mutual

/-- resolveStoreVariables: a string that starts with '\x7b' and ends with '\x7d'
is replaced by the store value at the enclosed (trimmed) path — via the
nested-path walk when the path is dotted, by direct property read otherwise;
plain objects and arrays are resolved recursively (an array's map drops
expando properties, as JS Array.prototype.map does); all other values are
returned unchanged. -/
def resolveStoreVariables : JValue → JValue → JValue
  | .str s, store =>
      if strStartsWith s '\x7b' && strEndsWith s '\x7d' then
        let path := trimString (sliceInner s)
        if strContainsChar path '.' then getNestedValue store path else jGetProp store path
      else .str s
  | .obj fs, store => .obj (resolveFields fs store)
  | .arr es _, store => .arr (resolveElems es store) []
  | v, _ => v

/-- Entry-wise recursion of resolveStoreVariables over an object's fields. -/
def resolveFields : List (String × JValue) → JValue → List (String × JValue)
  | [], _ => []
  | (k, v) :: rest, store =>
      (k, resolveStoreVariables v store) :: resolveFields rest store

/-- Element-wise recursion of resolveStoreVariables over an array. -/
def resolveElems : List JValue → JValue → List JValue
  | [], _ => []
  | v :: rest, store => resolveStoreVariables v store :: resolveElems rest store

end

/-- Index-keyed fields contributed by spreading an array, as in JS
object-spread of an array. -/
def arrIndexFields : List JValue → Nat → List (String × JValue)
  | [], _ => []
  | v :: rest, i => (toString i, v) :: arrIndexFields rest (i + 1)

/-- The field list produced by the object spread ...existing. -/
def spreadFields : JValue → List (String × JValue)
  | .obj fs => fs
  | .arr es ps => arrIndexFields es 0 ++ ps
  | _ => []

mutual

/-- deepMergeData(existing, patch): a patch that is null, not an object, or an
array leaves existing unchanged; otherwise start from a shallow copy of
existing and fold the patch's keys in order, recursing when both sides hold
plain objects and replacing wholesale otherwise. -/
def deepMergeData : JValue → JValue → JValue
  | existing, .obj pf => .obj (mergeFields (spreadFields existing) pf)
  | existing, _ => existing

/-- The key-by-key loop of deepMergeData over the patch's fields, updating the
result association list in place: recurse when the patch value and the
existing value are both plain objects, otherwise the patch value replaces. -/
def mergeFields : List (String × JValue) → List (String × JValue) → List (String × JValue)
  | res, [] => res
  | res, (k, pv) :: rest =>
      let merged :=
        match pv, lookupField res k with
        | .obj pvf, some (.obj evf) => deepMergeData (.obj evf) (.obj pvf)
        | _, _ => pv
      mergeFields (objInsert res k merged) rest

end

/-- The per-key merge choice of mergeFields, as a named function (the match
inside mergeFields is definitionally this). -/
def mergeStep : JValue → Option JValue → JValue
  | .obj pvf, some (.obj evf) => deepMergeData (.obj evf) (.obj pvf)
  | pv, _ => pv

/-- String(e.key) as used for view-node keys; the empty string stands for a
missing/null key (the claims only exercise string keys; array/object keys are
given a fixed rendering). -/
def jsKeyString : JValue → String
  | .undef => ""
  | .null => ""
  | .str s => s
  | .num n => toString n
  | .bool b => if b then "true" else "false"
  | .arr _ _ => ""
  | .obj _ => "[object Object]"

/-- The key under which a view node is identified during aggregation. -/
def keyOf (e : JValue) : String :=
  jsKeyString (jGetProp e "key")

/-- applyViewChunk: a non-array patch is ignored; otherwise drop every current
node whose key occurs among the patch's keys and append the patch nodes. -/
def applyViewChunk (current : List JValue) (viewPatch : JValue) : List JValue :=
  match viewPatch with
  | .arr patch _ =>
      let patchKeys := patch.map keyOf
      current.filter (fun el => !(patchKeys.contains (keyOf el))) ++ patch
  | _ => current

/-- applyDataChunk: merge a plain-object data delta into the store; null,
arrays and primitives are ignored. -/
def applyDataChunk (current : JValue) (data : JValue) : JValue :=
  match data with
  | .obj _ => deepMergeData current data
  | _ => current

/-- The aggregated view plus data handed to the renderer and to onUpdate. -/
structure DeclSpec where
  view : List JValue
  data : JValue

/-- Left fold of aggregateDeclUpdates: a 'view'-keyed object update patches
the view, otherwise a 'data'-keyed object update patches the data. -/
def aggregateGo : List JValue → List JValue → JValue → DeclSpec
  | [], view, data => ⟨view, data⟩
  | u :: rest, view, data =>
      if isObjectLike u && jHasProp u "view" then
        aggregateGo rest (applyViewChunk view (jGetProp u "view")) data
      else if isObjectLike u && jHasProp u "data" then
        aggregateGo rest view (applyDataChunk data (jGetProp u "data"))
      else aggregateGo rest view data

/-- aggregateDeclUpdates: fold the update stream into a single DeclSpec,
starting from the empty view and empty data store. -/
def aggregateDeclUpdates (updates : List JValue) : DeclSpec :=
  aggregateGo updates [] (.obj [])

/-- toDeclUpdates: only a parsed array yields updates, and only its elements
that are non-null objects carrying a view or data key are kept. -/
def toDeclUpdates (parsed : Option JValue) : List JValue :=
  match parsed with
  | some (.arr items _) =>
      items.filter (fun item =>
        isObjectLike item && (jHasProp item "view" || jHasProp item "data"))
  | _ => []

/-- Decidable statement that a view delta carried by an update has
pairwise-distinct node keys (vacuously true when the update carries no array
view). -/
def viewKeysOk (u : JValue) : Bool :=
  match jGetProp u "view" with
  | .arr patch _ => decide (patch.map keyOf).Nodup
  | _ => true

/-! ### Canonical JSON printer (used to state theorems about classes of texts) -/

/-- JSON string escaping for the quote and backslash characters. -/
def escChar (c : Char) : List Char :=
  if c = '"' ∨ c = '\\' then ['\\', c] else [c]

/-- Escape a character list for inclusion in a JSON string literal. -/
def escList : List Char → List Char
  | [] => []
  | c :: rest => escChar c ++ escList rest

/-- The decimal digit character for n < 10. -/
def digitChar (n : Nat) : Char :=
  match n with
  | 0 => '0' | 1 => '1' | 2 => '2' | 3 => '3' | 4 => '4'
  | 5 => '5' | 6 => '6' | 7 => '7' | 8 => '8' | _ => '9'

/-- Fuelled decimal rendering of a natural number (fuel n+1 always suffices). -/
def natCharsGo : Nat → Nat → List Char
  | 0, _ => []
  | fuel + 1, n =>
      if n < 10 then [digitChar n]
      else natCharsGo fuel (n / 10) ++ [digitChar (n % 10)]

/-- Decimal rendering of a natural number. -/
def natChars (n : Nat) : List Char :=
  natCharsGo (n + 1) n

/-- Decimal rendering of an integer. -/
def intChars (n : Int) : List Char :=
  if n < 0 then '-' :: natChars n.natAbs else natChars n.natAbs

mutual

/-- Canonical (whitespace-free) JSON rendering of a value.  undefined renders
as null and array expando properties are dropped, as JSON.stringify does. -/
def printChars : JValue → List Char
  | .undef => "null".data
  | .null => "null".data
  | .bool true => "true".data
  | .bool false => "false".data
  | .num n => intChars n
  | .str s => '"' :: (escList s.data ++ ['"'])
  | .arr es _ => '[' :: (printItems es ++ [']'])
  | .obj fs => '\x7b' :: (printFields fs ++ ['\x7d'])

/-- Comma-separated rendering of array elements. -/
def printItems : List JValue → List Char
  | [] => []
  | [v] => printChars v
  | v :: rest => printChars v ++ ',' :: printItems rest

/-- Comma-separated rendering of object members. -/
def printFields : List (String × JValue) → List Char
  | [] => []
  | [(k, v)] => '"' :: (escList k.data ++ '"' :: ':' :: printChars v)
  | (k, v) :: rest =>
      ('"' :: (escList k.data ++ '"' :: ':' :: printChars v)) ++ ',' :: printFields rest

end

mutual

/-- A value in the image of JSON.parse: no undefined anywhere and no array
expando properties. -/
def isJsonV : JValue → Bool
  | .undef => false
  | .arr es ps => ps.isEmpty && isJsonL es
  | .obj fs => isJsonF fs
  | _ => true

/-- isJsonV on each element of a list. -/
def isJsonL : List JValue → Bool
  | [] => true
  | v :: rest => isJsonV v && isJsonL rest

/-- isJsonV on each field value of an object. -/
def isJsonF : List (String × JValue) → Bool
  | [] => true
  | (_, v) :: rest => isJsonV v && isJsonF rest

end

/-! ### JSON.parse model -/

/-- Skip JSON whitespace. -/
def skipWs : List Char → List Char
  | [] => []
  | c :: rest => if isWsChar c then skipWs rest else c :: rest

/-- Decode a string-escape character; escapes outside this table (including
the \u form, which the claims never exercise) are rejected. -/
def escDecode (e : Char) : Option Char :=
  if e = '"' then some '"'
  else if e = '\\' then some '\\'
  else if e = '/' then some '/'
  else if e = 'n' then some '\n'
  else if e = 't' then some '\t'
  else if e = 'r' then some '\r'
  else if e = 'b' then some '\x08'
  else if e = 'f' then some '\x0c'
  else none

/-- Parse the body of a JSON string literal after the opening quote,
accumulating decoded characters in reverse. -/
def parseStringGo : List Char → List Char → Option (String × List Char)
  | _, [] => none
  | acc, c :: rest =>
      if c = '"' then some (String.mk acc.reverse, rest)
      else if c = '\\' then
        match rest with
        | [] => none
        | e :: rest2 =>
            match escDecode e with
            | some d => parseStringGo (d :: acc) rest2
            | none => none
      else parseStringGo (c :: acc) rest

/-- Numeric value of a digit character. -/
def digitVal (c : Char) : Nat := c.toNat - 48

/-- Value of a list of digit characters. -/
def digitsToNat (ds : List Char) : Nat :=
  ds.foldl (fun a c => a * 10 + digitVal c) 0

/-- Parse a JSON number (integers only; the wire format in play carries no
fractions or exponents). -/
def parseNumber (cs : List Char) : Option (JValue × List Char) :=
  match cs with
  | '-' :: rest =>
      let ds := rest.takeWhile Char.isDigit
      let r := rest.dropWhile Char.isDigit
      if ds.isEmpty then none else some (.num (-(Int.ofNat (digitsToNat ds))), r)
  | _ =>
      let ds := cs.takeWhile Char.isDigit
      let r := cs.dropWhile Char.isDigit
      if ds.isEmpty then none else some (.num (Int.ofNat (digitsToNat ds)), r)

/-- Match an exact character sequence. -/
def expectChars : List Char → List Char → Option (List Char)
  | [], rest => some rest
  | _ :: _, [] => none
  | c :: cs, d :: rest => if c = d then expectChars cs rest else none

mutual

/-- Fuelled recursive-descent JSON value parser (fuel input-length + 2 is
always sufficient); returns the value and the unconsumed remainder. -/
def parseVal : Nat → List Char → Option (JValue × List Char)
  | 0, _ => none
  | fuel + 1, cs =>
      match skipWs cs with
      | [] => none
      | c :: rest =>
          if c = '"' then
            match parseStringGo [] rest with
            | some (s, r) => some (.str s, r)
            | none => none
          else if c = '\x7b' then
            match skipWs rest with
            | '\x7d' :: r2 => some (.obj [], r2)
            | r2 => parseFieldsGo fuel r2 []
          else if c = '[' then
            match skipWs rest with
            | ']' :: r2 => some (.arr [] [], r2)
            | r2 => parseItemsGo fuel r2 []
          else if c = 't' then
            match expectChars ['r', 'u', 'e'] rest with
            | some r => some (.bool true, r)
            | none => none
          else if c = 'f' then
            match expectChars ['a', 'l', 's', 'e'] rest with
            | some r => some (.bool false, r)
            | none => none
          else if c = 'n' then
            match expectChars ['u', 'l', 'l'] rest with
            | some r => some (.null, r)
            | none => none
          else if c = '-' ∨ c.isDigit then parseNumber (c :: rest)
          else none

/-- Array-element loop of the JSON parser. -/
def parseItemsGo : Nat → List Char → List JValue → Option (JValue × List Char)
  | 0, _, _ => none
  | fuel + 1, cs, acc =>
      match parseVal fuel cs with
      | none => none
      | some (v, r) =>
          match skipWs r with
          | ',' :: r2 => parseItemsGo fuel r2 (acc ++ [v])
          | ']' :: r2 => some (.arr (acc ++ [v]) [], r2)
          | _ => none

/-- Object-member loop of the JSON parser (duplicate keys keep the last
value in the first slot, as in JS). -/
def parseFieldsGo : Nat → List Char → List (String × JValue) → Option (JValue × List Char)
  | 0, _, _ => none
  | fuel + 1, cs, acc =>
      match skipWs cs with
      | '"' :: r =>
          match parseStringGo [] r with
          | none => none
          | some (k, r2) =>
              match skipWs r2 with
              | ':' :: r3 =>
                  match parseVal fuel r3 with
                  | none => none
                  | some (v, r4) =>
                      match skipWs r4 with
                      | ',' :: r5 => parseFieldsGo fuel r5 (objInsert acc k v)
                      | '\x7d' :: r5 => some (.obj (objInsert acc k v), r5)
                      | _ => none
              | _ => none
      | _ => none

end

/-- JSON.parse on a character list: one value, surrounded only by
whitespace; throwing is modelled by none. -/
def parseJsonChars (cs : List Char) : Option JValue :=
  match parseVal (cs.length + 2) cs with
  | some (v, rest) => if (skipWs rest).isEmpty then some v else none
  | none => none

/-! ### Markdown code-fence extraction -/

/-- Index of the last newline in a list (used for the \s*\n backtracking of
the fence regex). -/
def lastNlGo : List Char → Nat → Option Nat → Option Nat
  | [], _, best => best
  | c :: rest, i, best => lastNlGo rest (i + 1) (if c = '\n' then some i else best)

/-- If the fence pattern (three ticks, optional json tag, whitespace whose
last newline closes the opening) matches at index i, return the content start
index. -/
def fenceMatchAt (cs : List Char) (i : Nat) : Option Nat :=
  let after := cs.drop i
  if List.isPrefixOf ['\x60', '\x60', '\x60'] after then
    let rest := after.drop 3
    let hasJson := List.isPrefixOf ['j', 's', 'o', 'n'] rest
    let rest2 := if hasJson then rest.drop 4 else rest
    let base := i + 3 + (if hasJson then 4 else 0)
    let w := rest2.takeWhile isWsChar
    match lastNlGo w 0 none with
    | some p => some (base + p + 1)
    | none => none
  else none

/-- First index at which the fence pattern matches, scanning left to right. -/
def fenceSearchGo (cs : List Char) : List Char → Nat → Option Nat
  | [], _ => none
  | _ :: t, i =>
      match fenceMatchAt cs i with
      | some s => some s
      | none => fenceSearchGo cs t (i + 1)

/-- First index at or after j at which three ticks occur (the lazy group's
closing fence). -/
def findFenceGo (cs : List Char) : List Char → Nat → Option Nat
  | [], _ => none
  | _ :: t, j =>
      if List.isPrefixOf ['\x60', '\x60', '\x60'] (cs.drop j) then some j
      else findFenceGo cs t (j + 1)

/-- The markdown code-block extraction step of tryParseJsonFromText: when the
fence regex matches, the working text becomes the trimmed fence interior. -/
def extractBlockChars (cs : List Char) : List Char :=
  match fenceSearchGo cs cs 0 with
  | none => cs
  | some s =>
      let e :=
        match findFenceGo cs (cs.drop s) s with
        | some j => j
        | none => cs.length
      trimChars ((cs.take e).drop s)

/-! ### Incremental JSON extractor -/

/-- Result record of tryParseJsonFromText; -1 plays its JS sentinel role. -/
structure StreamParseResult where
  value : Option JValue
  startIndex : Int
  endIndex : Int

/-- State of the character scan: nesting depth, string mode, escape flag,
offset just after the last complete top-level array element (-1 if none), and
the absolute position of the next character. -/
structure ScanSt where
  depth : Int
  inString : Bool
  escape : Bool
  lastEnd : Int
  pos : Nat

/-- Outcome of the scan: early exit at the matching close of the whole value,
or end of input with the final state. -/
inductive ScanOut where
  | early (pos : Nat)
  | ended (st : ScanSt)

/-- The character loop of tryParseJsonFromText, with the scan state passed
componentwise (depth, inString, escape, lastEnd, pos). -/
def scanGoC (isArray : Bool) (close : Char) :
    Int → Bool → Bool → Int → Nat → List Char → ScanOut
  | depth, inString, escape, lastEnd, pos, [] => .ended ⟨depth, inString, escape, lastEnd, pos⟩
  | depth, inString, escape, lastEnd, pos, c :: rest =>
      if escape then
        scanGoC isArray close depth inString false lastEnd (pos + 1) rest
      else if c = '\\' then
        scanGoC isArray close depth inString true lastEnd (pos + 1) rest
      else if c = '"' then
        scanGoC isArray close depth (!inString) escape lastEnd (pos + 1) rest
      else if inString then
        scanGoC isArray close depth inString escape lastEnd (pos + 1) rest
      else if c = '\x7b' ∨ c = '[' then
        scanGoC isArray close (depth + 1) inString escape lastEnd (pos + 1) rest
      else if c = '\x7d' ∨ c = ']' then
        let d := depth - 1
        let le := if isArray ∧ d = 1 ∧ c = '\x7d' then ((pos : Int) + 1) else lastEnd
        if d = 0 ∧ c = close then .early pos
        else scanGoC isArray close d inString escape le (pos + 1) rest
      else
        scanGoC isArray close depth inString escape lastEnd (pos + 1) rest

/-- The character loop of tryParseJsonFromText on a scan-state record. -/
def scanGo (isArray : Bool) (close : Char) (st : ScanSt) (cs : List Char) : ScanOut :=
  scanGoC isArray close st.depth st.inString st.escape st.lastEnd st.pos cs

/-- indexOf(c, start) returning an absolute index. -/
def indexOfGo (c : Char) : List Char → Nat → Option Nat
  | [], _ => none
  | d :: rest, i => if d = c then some i else indexOfGo c rest (i + 1)

/-- jsonText.indexOf(c, start). -/
def jsIndexOfFrom (cs : List Char) (c : Char) (start : Nat) : Option Nat :=
  match indexOfGo c (cs.drop start) 0 with
  | some k => some (start + k)
  | none => none

/-- substring(a, b) on character lists. -/
def sliceChars (cs : List Char) (a b : Nat) : List Char :=
  (cs.take b).drop a

/-- The replace(/,\s*$/, '') step applied after trimming: strip one trailing
comma if present. -/
def dropTrailingComma (cs : List Char) : List Char :=
  match cs.getLast? with
  | some ',' => cs.dropLast
  | _ => cs

/-- tryParseJsonFromText on a character list: markdown extraction, fast-path
parse, then the bracket scan with partial-array recovery.  Total, hence the
extractor never throws. -/
def tryParseJsonChars (cs : List Char) (startIndex : Nat) : StreamParseResult :=
  if (trimChars cs).isEmpty then ⟨none, -1, -1⟩
  else
    let jsonText := extractBlockChars cs
    let textFromStart := trimChars (jsonText.drop startIndex)
    let fast := if textFromStart.isEmpty then none else parseJsonChars textFromStart
    match fast with
    | some v => ⟨some v, (startIndex : Int), (jsonText.length : Int)⟩
    | none =>
        let arrayStart := jsIndexOfFrom jsonText '[' startIndex
        let objectStart := jsIndexOfFrom jsonText '\x7b' startIndex
        let startOpt :=
          match arrayStart, objectStart with
          | some a, some o => some (if a ≤ o then a else o)
          | some a, none => some a
          | none, some o => some o
          | none, none => none
        match startOpt with
        | none => ⟨none, -1, -1⟩
        | some start =>
            let isArray := (jsonText.drop start).head? = some '['
            let close := if isArray then ']' else '\x7d'
            match scanGo isArray close ⟨0, false, false, -1, start⟩ (jsonText.drop start) with
            | .early i =>
                match parseJsonChars (trimChars (sliceChars jsonText start (i + 1))) with
                | some v => ⟨some v, (start : Int), ((i : Int) + 1)⟩
                | none => ⟨none, (start : Int), -1⟩
            | .ended st =>
                if isArray ∧ st.lastEnd > 0 then
                  let le := st.lastEnd.toNat
                  let raw := dropTrailingComma (trimChars (sliceChars jsonText (start + 1) le))
                  match parseJsonChars ('[' :: (raw ++ [']'])) with
                  | some v => ⟨some v, (start : Int), (le : Int)⟩
                  | none => ⟨none, (start : Int), -1⟩
                else ⟨none, (start : Int), -1⟩

/-- tryParseJsonFromText(text, startIndex = 0). -/
def tryParseJsonFromText (text : String) (startIndex : Nat := 0) : StreamParseResult :=
  tryParseJsonChars text.data startIndex

/-! ### Streaming orchestration (generator.ts) -/

/-- The two chunk delivery modes of the OpenAI streaming callback. -/
inductive ChunkKind where
  | replace
  | append

/-- One streaming callback invocation. -/
structure StreamChunk where
  kind : ChunkKind
  text : String

/-- The closure state of generate's streaming handler: accumulated text plus
the cached update count and aggregated spec. -/
structure StreamState where
  streamedText : String
  updateCount : Nat
  spec : DeclSpec

/-- Initial handler state (empty text, zero updates, empty spec). -/
def initStreamState : StreamState :=
  ⟨"", 0, ⟨[], .obj []⟩⟩

/-- handleStreamChunk: update the text buffer, parse it, and when strictly
more updates than previously recorded are available, cache and emit the newly
aggregated spec (the emitted value models the onUpdate invocation). -/
def handleStreamChunk (st : StreamState) (c : StreamChunk) : StreamState × Option DeclSpec :=
  let text :=
    match c.kind with
    | .replace => c.text
    | .append => st.streamedText ++ c.text
  let updates := toDeclUpdates (tryParseJsonFromText text 0).value
  if updates.length > st.updateCount then
    let spec := aggregateDeclUpdates updates
    (⟨text, updates.length, spec⟩, some spec)
  else
    (⟨text, st.updateCount, st.spec⟩, none)

/-- Run the handler over a chunk sequence, collecting the emitted specs. -/
def runChunks : StreamState → List StreamChunk → StreamState × List DeclSpec
  | st, [] => (st, [])
  | st, c :: rest =>
      let step := handleStreamChunk st c
      let next := runChunks step.1 rest
      (next.1, (match step.2 with | some s => [s] | none => []) ++ next.2)

/-- The chunk sequence callOpenAIStreaming delivers for a list of deltas:
empty deltas are skipped, the first delivered one replaces, the rest append. -/
def mkStreamChunks (deltas : List String) : List StreamChunk :=
  match deltas.filter (fun d => !d.isEmpty) with
  | [] => []
  | d :: rest => ⟨.replace, d⟩ :: rest.map (fun t => ⟨.append, t⟩)

/-- The final-response logic of generate: reject when no valid update parsed,
reuse the cached spec when the streaming cache already aggregated the same
number of updates, aggregate afresh otherwise. -/
def generateFromResponse (cached : StreamState) (response : String) : Except String DeclSpec :=
  let updates := toDeclUpdates (tryParseJsonFromText response 0).value
  if updates.length = 0 then .error "Invalid response: expected a JSON array of updates"
  else if updates.length = cached.updateCount then .ok cached.spec
  else .ok (aggregateDeclUpdates updates)

/-- generate, driven by the stream's deltas: the response is their
concatenation (callOpenAIStreaming rejects an empty one), the cache is the
handler's final state when onUpdate was supplied. -/
def generate (onUpdate : Bool) (deltas : List String) : Except String DeclSpec :=
  let response := String.join (deltas.filter (fun d => !d.isEmpty))
  if response.isEmpty then .error "No content in OpenAI response"
  else
    let cached :=
      if onUpdate then (runChunks initStreamState (mkStreamChunks deltas)).1
      else initStreamState
    generateFromResponse cached response

/-! ### Heap model for the data-bind setter (claim C3) -/

/-- A heap value: an immediate primitive or a reference to a heap object. -/
inductive HVal where
  | imm (v : JValue)
  | ref (a : Nat)

/-- Association lookup for heap-object fields. -/
def hLookup : List (String × HVal) → String → Option HVal
  | [], _ => none
  | (k, v) :: rest, key => if k = key then some v else hLookup rest key

/-- Field assignment on heap-object fields (existing key keeps its slot). -/
def hInsert : List (String × HVal) → String → HVal → List (String × HVal)
  | [], key, v => [(key, v)]
  | (k, w) :: rest, key, v =>
      if k = key then (k, v) :: rest else (k, w) :: hInsert rest key v

/-- A mutable JS heap fragment: plain objects addressed by allocation order. -/
structure Heap where
  objs : List (Nat × List (String × HVal))
  next : Nat

/-- Fields of the object at an address. -/
def heapObj : List (Nat × List (String × HVal)) → Nat → Option (List (String × HVal))
  | [], _ => none
  | (a, fs) :: rest, addr => if a = addr then some fs else heapObj rest addr

/-- Replace the fields of the object at an address. -/
def heapSetObj : List (Nat × List (String × HVal)) → Nat → List (String × HVal) →
    List (Nat × List (String × HVal))
  | [], _, _ => []
  | (a, fs) :: rest, addr, nfs =>
      if a = addr then (a, nfs) :: rest else (a, fs) :: heapSetObj rest addr nfs

/-- Allocate a fresh object with the given fields. -/
def heapAlloc (h : Heap) (fields : List (String × HVal)) : Heap × Nat :=
  (⟨h.objs ++ [(h.next, fields)], h.next + 1⟩, h.next)

/-- obj[k] on the heap. -/
def heapGetField (h : Heap) (a : Nat) (k : String) : Option HVal :=
  match heapObj h.objs a with
  | some fs => hLookup fs k
  | none => none

/-- obj[k] = v on the heap: in-place mutation of the addressed object. -/
def heapSetField (h : Heap) (a : Nat) (k : String) (v : HVal) : Heap :=
  ⟨heapSetObj h.objs a (hInsert ((heapObj h.objs a).getD []) k v), h.next⟩

/-- setNestedValue run against the heap, exactly as the source walks: an
existing object child is descended into without copying; a missing or
primitive child is replaced by a freshly allocated empty object. -/
def setNestedValueH : Heap → Nat → List String → HVal → Heap
  | h, _, [], _ => h
  | h, cur, [last], v => heapSetField h cur last v
  | h, cur, p :: q :: rest, v =>
      match heapGetField h cur p with
      | some (.ref a) => setNestedValueH h a (q :: rest) v
      | _ =>
          let alloc := heapAlloc h []
          let h2 := heapSetField alloc.1 cur p (.ref alloc.2)
          setNestedValueH h2 alloc.2 (q :: rest) v

/-- The setter produced by createDataBind, on the heap: shallow-copy the
previous store object ( ...prev ), then run the mutating setNestedValue on the
copy; returns the heap and the new root. -/
def dataBindSet (h : Heap) (prevRoot : Nat) (path : String) (v : HVal) : Heap × Nat :=
  let fields := (heapObj h.objs prevRoot).getD []
  let alloc := heapAlloc h fields
  (setNestedValueH alloc.1 alloc.2 (splitOnDot path) v, alloc.2)

/-- Read the object graph reachable from a heap value back into a pure value
(fuel bounds the dereferencing depth). -/
def readTree : Nat → Heap → HVal → JValue
  | 0, _, _ => .undef
  | _ + 1, _, .imm v => v
  | fuel + 1, h, .ref a =>
      .obj (((heapObj h.objs a).getD []).map (fun kv => (kv.1, readTree fuel h kv.2)))

/-! ### Node renderer (renderDeclNode / renderDeclNodes) -/

/-- A render target: a loaded component (opaque tag) or a literal DOM tag. -/
inductive RTarget where
  | domTag (t : String)
  | comp (c : String)

/-- Rendered output: null, a text child, or an element with key, props and
structural children. -/
inductive RNode where
  | nil
  | text (s : String)
  | elem (target : RTarget) (key : String) (props : JValue) (children : List RNode)

/-- Whether a rendered node is null (filtered out of children lists). -/
def isNilNode : RNode → Bool
  | .nil => true
  | _ => false

/-- Generic association lookup keyed by strings (the JS Map model). -/
def assocLookup {α : Type} : List (String × α) → String → Option α
  | [], _ => none
  | (k, v) :: rest, key => if k = key then some v else assocLookup rest key

/-- Lower-case a string (type.toLowerCase() for the DOM fallback). -/
def toLowerStr (s : String) : String :=
  String.mk (s.data.map Char.toLower)

/-- Fields view of Object.assign(target, src) for object sources. -/
def assignFields (tf : List (String × JValue)) (sf : List (String × JValue)) :
    List (String × JValue) :=
  sf.foldl (fun acc kv => objInsert acc kv.1 kv.2) tf

/-- Object.assign(target, src). -/
def jsAssign : JValue → JValue → JValue
  | .obj tf, .obj sf => .obj (assignFields tf sf)
  | t, _ => t

/-- delete obj[k]. -/
def deleteKeyFields : List (String × JValue) → String → List (String × JValue)
  | [], _ => []
  | (k, v) :: rest, key => if k = key then rest else (k, v) :: deleteKeyFields rest key

/-- delete obj[k] on a value. -/
def jsDelete : JValue → String → JValue
  | .obj fs, k => .obj (deleteKeyFields fs k)
  | v, _ => v

/-- The render context: node map, loaded-components map (a stored none models
a component that failed to load, i.e. the JS null entry), the data store, and
the per-type resolveProps adapters.  Adapters are abstracted as prop
transformers; the registry's concrete adapters additionally close over the
context, which the claims under verification do not depend on. -/
structure RenderContext where
  declNodes : List (String × JValue)
  loadedComponents : List (String × Option String)
  dataStore : JValue
  resolver : String → Option (JValue → JValue)

/-- renderDeclNode: look the key up in the node map (absent: null), resolve
the render target (absent from the components map: lower-cased DOM tag;
present but null: inline error box), resolve props against the store, keep
top-level children as a prop, delete the key prop, apply the adapter, and
attach filtered structural children only when no children prop survived.
Fuel bounds the recursion depth through children; a node whose type is not a
string is rendered as null (the source would throw there, which no claim
exercises). -/
def renderDeclNode : Nat → String → RenderContext → RNode
  | 0, _, _ => .nil
  | fuel + 1, nodeKey, ctx =>
      match assocLookup ctx.declNodes nodeKey with
      | none => .nil
      | some node =>
          match jGetProp node "type" with
          | .str ty =>
              let propsD :=
                match jGetProp node "props" with
                | .undef => .obj []
                | p => p
              let topLevelChildren := jGetProp node "children"
              let childrenVal :=
                if truthy topLevelChildren then topLevelChildren
                else
                  match jGetProp propsD "children" with
                  | .arr es ps => .arr es ps
                  | _ => .arr [] []
              let childKeys :=
                match childrenVal with
                | .arr es _ =>
                    es.filterMap (fun e => match e with | JValue.str s => some s | _ => none)
                | _ => []
              let targetOpt : Option RTarget :=
                match assocLookup ctx.loadedComponents ty with
                | none => some (.domTag (toLowerStr ty))
                | some none => none
                | some (some ctag) => some (.comp ctag)
              match targetOpt with
              | none =>
                  .elem (.domTag "div") nodeKey
                    (.obj [("className",
                      .str "p-2 bg-red-50 border border-red-200 rounded text-red-600 text-sm")])
                    [.text ("Error: Component \"" ++ ty ++ "\" not found")]
              | some target =>
                  let processed0 :=
                    resolveStoreVariables (.obj (spreadFields propsD)) ctx.dataStore
                  let processed1 :=
                    match topLevelChildren with
                    | .arr es ps => jSetProp processed0 "children" (.arr es ps)
                    | _ => processed0
                  let processed2 := jsDelete processed1 "key"
                  let childNodes :=
                    (childKeys.map (fun k => renderDeclNode fuel k ctx)).filter
                      (fun n => !isNilNode n)
                  let processed3 :=
                    match ctx.resolver ty with
                    | some f => jsAssign processed2 (f processed2)
                    | none => processed2
                  match jGetProp processed3 "children" with
                  | .undef => .elem target nodeKey processed3 childNodes
                  | _ => .elem target nodeKey processed3 []
          | _ => .nil

/-- renderDeclNodes: render each key and filter out the null results (the
childNodes computation inside renderDeclNode inlines this definition). -/
def renderDeclNodes (fuel : Nat) (keys : List String) (ctx : RenderContext) : List RNode :=
  (keys.map (fun k => renderDeclNode fuel k ctx)).filter (fun n => !isNilNode n)

/-! ### Concrete fixtures used by the claim theorems -/

/-- The spec's partial-stream example text, truncated mid-third-element. -/
def specExampleText : String :=
  "[\x7b\"view\":[\x7b\"key\":\"a\",\"type\":\"Card\"\x7d]\x7d,\x7b\"data\":\x7b\"x\":1\x7d\x7d,\x7b\"view\":[\x7b\"key\""

/-- First complete update object of the spec's example. -/
def specUpd1 : JValue :=
  .obj [("view", .arr [.obj [("key", .str "a"), ("type", .str "Card")]] [])]

/-- Second complete update object of the spec's example. -/
def specUpd2 : JValue :=
  .obj [("data", .obj [("x", .num 1)])]

/-- A truncated array whose complete elements are an object and a bare
number. -/
def c1CexText : String := "[\x7b\"a\":1\x7d,2,\x7b\"x"

/-- First streamed chunk of the C4 scenario (one complete view update). -/
def c4chunk1 : StreamChunk :=
  ⟨.replace, "[\x7b\"view\":[\x7b\"key\":\"a\",\"type\":\"X\"\x7d]\x7d,"⟩

/-- Second streamed chunk of the C4 scenario (an identical view update; the
aggregate is unchanged but the update count grows). -/
def c4chunk2 : StreamChunk :=
  ⟨.append, "\x7b\"view\":[\x7b\"key\":\"a\",\"type\":\"X\"\x7d]\x7d,"⟩

/-- The spec emitted by both C4 callback invocations. -/
def c4spec : DeclSpec :=
  ⟨[.obj [("key", .str "a"), ("type", .str "X")]], .obj []⟩

/-- First delta of the C8 scenario: one complete data update x = 1. -/
def c8delta1 : String := "[\x7b\"data\":\x7b\"x\":1\x7d\x7d,"

/-- Second delta of the C8 scenario: an opening markdown fence whose interior
is a different single data update y = 2 — the extraction now ignores the
earlier text, the update count stays 1, and generate's cache shortcut returns
the stale aggregate. -/
def c8delta2 : String := "\x60\x60\x60json\n[\x7b\"data\":\x7b\"y\":2\x7d\x7d,"

/-- Heap with the previous store at address 0 reading as \x7ba: \x7bb: 1\x7d\x7d. -/
def c3Heap0 : Heap := ⟨[(0, [("a", .ref 1)]), (1, [("b", .imm (.num 1))])], 2⟩

/-- The heap and new root after running the data-bind setter for path "a.b"
with value 2 over the previous store. -/
def c3After : Heap × Nat := dataBindSet c3Heap0 0 "a.b" (.imm (.num 2))

/-- Render context for the C9 witness: one Card node keyed "a", no loaded
components, empty store, no adapters. -/
def c9ctx : RenderContext :=
  ⟨[("a", .obj [("key", .str "a"), ("type", .str "Card")])], [], .obj [], fun _ => none⟩

/-- View update with the node a : X. -/
def c5updX : JValue :=
  .obj [("view", .arr [.obj [("key", .str "a"), ("type", .str "X")]] [])]

/-- View update with the node a : Y. -/
def c5updY : JValue :=
  .obj [("view", .arr [.obj [("key", .str "a"), ("type", .str "Y")]] [])]

/-- Data update profile.first = "A". -/
def c6prof1 : JValue := .obj [("data", .obj [("profile", .obj [("first", .str "A")])])]

/-- Data update profile.last = "B". -/
def c6prof2 : JValue := .obj [("data", .obj [("profile", .obj [("last", .str "B")])])]

/-- Data update tags = ["x"]. -/
def c6tags1 : JValue := .obj [("data", .obj [("tags", .arr [.str "x"] [])])]

/-- Data update tags = ["y", "z"]. -/
def c6tags2 : JValue := .obj [("data", .obj [("tags", .arr [.str "y", .str "z"] [])])]

/-- Update sequence for the C10 witness: two view deltas with overlapping
keys across deltas but distinct keys within each, plus a data delta. -/
def c10upds : List JValue :=
  [.obj [("view", .arr [.obj [("key", .str "a"), ("type", .str "X")],
                        .obj [("key", .str "b"), ("type", .str "Y")]] [])],
   .obj [("data", .obj [("t", .num 1)])],
   .obj [("view", .arr [.obj [("key", .str "b"), ("type", .str "Z")],
                        .obj [("key", .str "c"), ("type", .str "W")]] [])]]

/-! ## Helper lemmas -/

theorem lookupField_objInsert (fs : List (String × JValue)) (a b : String) (v : JValue) :
    lookupField (objInsert fs a v) b = if b = a then some v else lookupField fs b := by
  induction fs with
  | nil =>
      simp only [objInsert, lookupField]
      split_ifs with h1 h2 h2
      · rfl
      · exact absurd h1.symm h2
      · exact absurd h2.symm h1
      · rfl
  | cons head tail ih =>
      obtain ⟨k0, w⟩ := head
      simp only [objInsert]
      by_cases h0 : k0 = a
      · subst h0
        simp only [if_pos rfl, lookupField]
        split_ifs with h1 h2 h2
        · rfl
        · exact absurd h1.symm h2
        · exact absurd h2.symm h1
        · rfl
      · simp only [if_neg h0, lookupField, ih]
        split_ifs with h1 h2 h2
        · exact absurd (h1.trans h2) h0
        · rfl
        · rfl
        · rfl

theorem lookupField_eq_none (fs : List (String × JValue)) (b : String)
    (h : b ∉ fs.map Prod.fst) : lookupField fs b = none := by
  induction fs with
  | nil => rfl
  | cons head tail ih =>
      obtain ⟨k0, w⟩ := head
      simp only [List.map_cons, List.mem_cons] at h
      push_neg at h
      simp only [lookupField, if_neg (fun hh : k0 = b => h.1 hh.symm)]
      exact ih h.2

theorem assocLookup_mem {α : Type} (l : List (String × α)) (key : String) (v : α)
    (h : assocLookup l key = some v) : (key, v) ∈ l := by
  induction l with
  | nil => simp [assocLookup] at h
  | cons head tail ih =>
      obtain ⟨k0, w⟩ := head
      by_cases h0 : k0 = key
      · subst h0
        rw [show assocLookup ((k0, w) :: tail) k0 = some w from by simp [assocLookup]] at h
        injection h with h
        subst h
        exact List.mem_cons_self _ _
      · simp only [assocLookup, if_neg h0] at h
        exact List.mem_cons_of_mem _ (ih h)

theorem getD_set_self (es : List JValue) (i : Nat) (v : JValue) (h : i < es.length) :
    (es.set i v).getD i .undef = v := by
  induction es generalizing i with
  | nil => simp at h
  | cons a t ih =>
      cases i with
      | zero => rfl
      | succ n =>
          simp only [List.set_cons_succ, List.getD_cons_succ]
          exact ih n (by simp only [List.length_cons] at h; omega)

theorem getD_snoc (xs : List JValue) (v : JValue) :
    (xs ++ [v]).getD xs.length .undef = v := by
  induction xs with
  | nil => rfl
  | cons a t ih =>
      simp only [List.cons_append, List.length_cons, List.getD_cons_succ]
      exact ih

theorem jSetProp_objLike (cur : JValue) (p : String) (v : JValue)
    (h : isObjectLike cur = true) : isObjectLike (jSetProp cur p v) = true := by
  cases cur with
  | obj fs => rfl
  | arr es ps =>
      simp only [jSetProp]
      split_ifs <;> rfl
  | _ => simp [isObjectLike] at h

theorem jGetProp_jSetProp (cur : JValue) (p : String) (v : JValue)
    (h : isObjectLike cur = true) : jGetProp (jSetProp cur p v) p = v := by
  cases cur with
  | obj fs => simp [jSetProp, jGetProp, lookupField_objInsert]
  | arr es ps =>
      simp only [jSetProp]
      by_cases hidx : isIndexString p
      · simp only [hidx, if_true]
        by_cases hlt : toIndex p < es.length
        · simp only [if_pos hlt, jGetProp, hidx, if_true]
          exact getD_set_self es (toIndex p) v hlt
        · simp only [if_neg hlt, jGetProp, hidx, if_true]
          have hl : (es ++ List.replicate (toIndex p - es.length) JValue.undef).length
              = toIndex p := by
            simp only [List.length_append, List.length_replicate]
            omega
          have hs := getD_snoc (es ++ List.replicate (toIndex p - es.length) JValue.undef) v
          rwa [hl] at hs
      · simp [jSetProp, hidx, jGetProp, lookupField_objInsert]
  | _ => simp [isObjectLike] at h

theorem vivify_objLike (child : JValue) :
    isObjectLike (if isObjectLike child then child else .obj []) = true := by
  by_cases h : isObjectLike child
  · rw [if_pos h]; exact h
  · rw [if_neg h]; rfl

theorem getNestedParts_undef (qs : List String) : getNestedParts .undef qs = .undef := by
  cases qs with
  | nil => rfl
  | cons q t => simp [getNestedParts, isObjectLike]

theorem getNestedParts_append (ps : List String) (qs : List String) (cur : JValue) :
    getNestedParts cur (ps ++ qs) = getNestedParts (getNestedParts cur ps) qs := by
  induction ps generalizing cur with
  | nil => rfl
  | cons p t ih =>
      simp only [List.cons_append, getNestedParts]
      by_cases h : isObjectLike cur
      · simp only [h, if_true]
        exact ih _
      · rw [if_neg h, if_neg h]
        exact (getNestedParts_undef qs).symm

theorem contains_true_iff (l : List String) (s : String) : l.contains s = true ↔ s ∈ l := by
  simp [List.contains, List.elem_eq_mem]

/-! ## Claim C2 — exact-placeholder variable resolution -/

/-- C2, counterexample: the string consisting of two placeholders back to
back is not a single placeholder, yet the Variable Resolver does not return
it unchanged — it substitutes the store lookup of the pathological path
a\x7d\x7bb, which is undefined.  The claim's assertion that strings containing
more than one placeholder are returned unchanged is therefore false. -/
theorem C2_counterexample :
    resolveStoreVariables (.str "\x7ba\x7d\x7bb\x7d") (.obj [("a", .num 1), ("b", .num 2)])
      = .undef
    ∧ JValue.undef ≠ JValue.str "\x7ba\x7d\x7bb\x7d" :=
  ⟨rfl, fun h => nomatch h⟩

/-- C2, amended: a string value is substituted exactly when it starts with
'\x7b' and ends with '\x7d'; the path is the trimmed interior, read through the
nested walk when dotted and by direct top-level lookup otherwise.  Every
other string — in particular one with a placeholder embedded in surrounding
text — is returned unchanged, and the stored value's type is preserved
(resolving "\x7bcount\x7d" against count = 7 yields the number 7). -/
theorem C2_exact_brace_resolution :
    (∀ (s : String) (store : JValue),
        resolveStoreVariables (.str s) store =
          if strStartsWith s '\x7b' && strEndsWith s '\x7d' then
            (if strContainsChar (trimString (sliceInner s)) '.' then
              getNestedValue store (trimString (sliceInner s))
            else jGetProp store (trimString (sliceInner s)))
          else .str s)
    ∧ resolveStoreVariables (.str "\x7bcount\x7d") (.obj [("count", .num 7)]) = .num 7
    ∧ resolveStoreVariables (.str "Total: \x7bcount\x7d") (.obj [("count", .num 7)])
        = .str "Total: \x7bcount\x7d" :=
  ⟨fun _ _ => rfl, rfl, rfl⟩

/-! ## Claim C3 — the data-bind setter and the previous store -/

/-- C3 (code bug): over the previous store \x7ba: \x7bb: 1\x7d\x7d (heap address 0),
running the setter produced by createDataBind for path "a.b" with value 2
spreads only the top level; the nested object at address 1 is shared and
mutated in place.  Afterwards the original store reads \x7ba: \x7bb: 2\x7d\x7d — it is
not left unchanged, contradicting the claim that the written spine is copied;
the new root does carry the update, as expected. -/
theorem C3_setter_mutates_previous_store :
    readTree 3 c3Heap0 (.ref 0) = .obj [("a", .obj [("b", .num 1)])]
    ∧ readTree 3 c3After.1 (.ref c3After.2) = .obj [("a", .obj [("b", .num 2)])]
    ∧ readTree 3 c3After.1 (.ref 0) = .obj [("a", .obj [("b", .num 2)])]
    ∧ readTree 3 c3After.1 (.ref 0) ≠ readTree 3 c3Heap0 (.ref 0) := by
  refine ⟨rfl, rfl, rfl, ?_⟩
  intro h
  rw [show readTree 3 c3After.1 (.ref 0) = JValue.obj [("a", .obj [("b", .num 2)])] from rfl,
      show readTree 3 c3Heap0 (.ref 0) = JValue.obj [("a", .obj [("b", .num 1)])] from rfl] at h
  simp at h

/-! ## Claim C5 — replace-by-key view aggregation -/

/-- C5: applying a view delta removes from the running view exactly the nodes
whose key occurs among the incoming nodes' keys and appends all incoming
nodes (membership characterisation plus the literal kept-prefix shape), so
keys already present are replaced and new keys keep append order; in
particular aggregating a : X then a : Y yields exactly the single node a : Y. -/
theorem C5_replace_by_key :
    (∀ (current patch : List JValue) (ps : List (String × JValue)) (el : JValue),
        el ∈ applyViewChunk current (.arr patch ps) ↔
          (el ∈ current ∧ keyOf el ∉ patch.map keyOf) ∨ el ∈ patch)
    ∧ (∀ (current patch : List JValue) (ps : List (String × JValue)),
        applyViewChunk current (.arr patch ps) =
          current.filter (fun el => !((patch.map keyOf).contains (keyOf el))) ++ patch)
    ∧ aggregateDeclUpdates [c5updX, c5updY] =
        ⟨[.obj [("key", .str "a"), ("type", .str "Y")]], .obj []⟩ := by
  refine ⟨?_, fun _ _ _ => rfl, rfl⟩
  intro current patch ps el
  simp only [applyViewChunk, List.mem_append, List.mem_filter]
  constructor
  · rintro (⟨hmem, hf⟩ | hp)
    · refine Or.inl ⟨hmem, ?_⟩
      intro hk
      rw [(contains_true_iff (patch.map keyOf) (keyOf el)).mpr hk] at hf
      simp at hf
    · exact Or.inr hp
  · rintro (⟨hmem, hk⟩ | hp)
    · refine Or.inl ⟨hmem, ?_⟩
      rw [Bool.not_eq_true']
      exact Bool.eq_false_iff.mpr (fun hc => hk ((contains_true_iff _ _).mp hc))
    · exact Or.inr hp

/-- C5 witness: instantiating the membership characterisation at the claim's
concrete nodes. -/
theorem C5_replace_by_key_witness :
    JValue.obj [("key", .str "a"), ("type", .str "Y")] ∈
      applyViewChunk [.obj [("key", .str "a"), ("type", .str "X")]]
        (.arr [.obj [("key", .str "a"), ("type", .str "Y")]] []) :=
  (C5_replace_by_key.1 _ _ _ _).mpr (Or.inr (by simp))

/-! ## Claim C7 — path accessor round trip -/

/-- C7: writing a value at any nonempty segment list into any object-like
store and reading the same segments back yields exactly the written value
(auto-vivified intermediates included); any read whose walk meets a
non-object intermediate returns undefined (and both accessors are total Lean
functions, so they never throw); the spec's two concrete examples follow. -/
theorem C7_path_accessor_round_trip :
    (∀ (store : JValue) (parts : List String) (v : JValue),
        isObjectLike store = true → parts ≠ [] →
        getNestedParts (setNestedParts store parts v) parts = v)
    ∧ (∀ (store : JValue) (ps : List String) (q : String) (qs : List String),
        isObjectLike (getNestedParts store ps) = false →
        getNestedParts store (ps ++ q :: qs) = .undef)
    ∧ getNestedValue (setNestedValue (.obj []) "a.b.c" (.num 5)) "a.b.c" = .num 5
    ∧ getNestedValue (.obj []) "missing.path" = .undef := by
  refine ⟨?_, ?_, rfl, rfl⟩
  · intro store parts
    induction parts generalizing store with
    | nil => intro v _ hne; exact absurd rfl hne
    | cons p rest ih =>
        intro v hs _
        cases rest with
        | nil =>
            simp only [setNestedParts, getNestedParts,
              jSetProp_objLike store p v hs, if_true]
            exact jGetProp_jSetProp store p v hs
        | cons q rest2 =>
            simp only [setNestedParts, getNestedParts,
              jSetProp_objLike store p _ hs, if_true]
            rw [jGetProp_jSetProp store p _ hs]
            exact ih _ v (vivify_objLike _) (by simp)
  · intro store ps q qs h
    rw [getNestedParts_append]
    simp only [getNestedParts, h]
    rw [if_neg (by simp [h])]

/-- C7 witness: the round trip and the undefined-read fact at concrete
inputs. -/
theorem C7_path_accessor_round_trip_witness :
    getNestedParts (setNestedParts (.obj []) ["a", "b", "c"] (.num 5)) ["a", "b", "c"]
      = .num 5
    ∧ getNestedParts (JValue.obj []) (["missing"] ++ "path" :: []) = .undef :=
  ⟨C7_path_accessor_round_trip.1 (.obj []) ["a", "b", "c"] (.num 5) rfl (by simp),
   C7_path_accessor_round_trip.2.1 (.obj []) ["missing"] "path" [] rfl⟩

/-! ## Claim C10 — key uniqueness is preserved by aggregation -/

theorem applyViewChunk_nodup (current patch : List JValue) (ps : List (String × JValue))
    (hc : (current.map keyOf).Nodup) (hp : (patch.map keyOf).Nodup) :
    ((applyViewChunk current (.arr patch ps)).map keyOf).Nodup := by
  simp only [applyViewChunk, List.map_append]
  refine List.Nodup.append ?_ hp ?_
  · exact hc.sublist (List.Sublist.map keyOf (List.filter_sublist current))
  · intro a ha hb
    simp only [List.mem_map] at ha
    obtain ⟨el, hel, rfl⟩ := ha
    have hfil := (List.mem_filter.mp hel).2
    rw [(contains_true_iff (patch.map keyOf) (keyOf el)).mpr hb] at hfil
    simp at hfil

theorem applyViewChunk_nodup_any (current : List JValue) (w : JValue)
    (hc : ((current.map keyOf)).Nodup)
    (hw : ∀ (patch : List JValue) (ps : List (String × JValue)),
        w = .arr patch ps → ((patch.map keyOf)).Nodup) :
    (((applyViewChunk current w).map keyOf)).Nodup := by
  cases w with
  | arr patch ps => exact applyViewChunk_nodup current patch ps hc (hw patch ps rfl)
  | undef => exact hc
  | null => exact hc
  | bool b => exact hc
  | num n => exact hc
  | str s => exact hc
  | obj fs => exact hc

theorem aggregateGo_nodup (updates : List JValue) :
    ∀ (view : List JValue) (data : JValue),
      (∀ u ∈ updates, viewKeysOk u = true) →
      (view.map keyOf).Nodup →
      ((aggregateGo updates view data).view.map keyOf).Nodup := by
  induction updates with
  | nil => intro view data _ hv; exact hv
  | cons u rest ih =>
      intro view data hall hv
      have hu : viewKeysOk u = true := hall u (List.mem_cons_self _ _)
      have hrest : ∀ w ∈ rest, viewKeysOk w = true :=
        fun w hw => hall w (List.mem_cons_of_mem _ hw)
      have hw : ∀ (patch : List JValue) (ps : List (String × JValue)),
          jGetProp u "view" = .arr patch ps → ((patch.map keyOf)).Nodup := by
        intro patch ps hview
        have hvk := hu
        simp only [viewKeysOk, hview] at hvk
        exact of_decide_eq_true hvk
      simp only [aggregateGo]
      split_ifs with h1 h2
      · exact ih _ _ hrest (applyViewChunk_nodup_any _ _ hv hw)
      · exact ih _ _ hrest hv
      · exact ih _ _ hrest hv

/-- C10: starting from the empty view, if every view delta in the update
sequence carries pairwise-distinct node keys then the aggregated view's node
keys are pairwise distinct — replace-by-key removes any older node whose key
an incoming delta reuses, and data deltas leave the view untouched. -/
theorem C10_key_uniqueness_invariant (updates : List JValue)
    (h : ∀ u ∈ updates, viewKeysOk u = true) :
    ((aggregateDeclUpdates updates).view.map keyOf).Nodup :=
  aggregateGo_nodup updates [] (.obj []) h (by simp)

/-- C10 witness: a concrete three-delta sequence (two view deltas reusing key
"b" across deltas, one data delta) whose aggregate keeps distinct keys. -/
theorem C10_key_uniqueness_invariant_witness :
    ((aggregateDeclUpdates c10upds).view.map keyOf).Nodup :=
  C10_key_uniqueness_invariant c10upds (by decide)

/-! ## Claim C4 — when the streaming callback fires -/

/-- C4, counterexample: two streamed chunks, each completing one view update
with the identical node a : X.  Both chunks trigger the callback (two
emissions), and the second delivered spec is deep-equal to the first — the
callback fired although the aggregated result did not change, refuting the
claim that it is invoked only when the aggregate differs by deep equality
from the last delivered one. -/
theorem C4_counterexample :
    (runChunks initStreamState [c4chunk1, c4chunk2]).2 = [c4spec, c4spec] := rfl

/-- C4, amended: the handler invokes the callback exactly when the number of
complete parsed updates strictly exceeds the previously recorded count, in
which case it delivers the aggregate of all parsed updates (which may be
deep-equal to the previously delivered one); the recorded count then becomes
the new length. -/
theorem C4_update_callback_on_count_increase :
    ∀ (st : StreamState) (c : StreamChunk),
      (handleStreamChunk st c).2 =
        (if (toDeclUpdates (tryParseJsonFromText
              (match c.kind with
               | .replace => c.text
               | .append => st.streamedText ++ c.text) 0).value).length > st.updateCount
         then some (aggregateDeclUpdates (toDeclUpdates (tryParseJsonFromText
              (match c.kind with
               | .replace => c.text
               | .append => st.streamedText ++ c.text) 0).value))
         else none)
      ∧ (handleStreamChunk st c).1.updateCount =
        (if (toDeclUpdates (tryParseJsonFromText
              (match c.kind with
               | .replace => c.text
               | .append => st.streamedText ++ c.text) 0).value).length > st.updateCount
         then (toDeclUpdates (tryParseJsonFromText
              (match c.kind with
               | .replace => c.text
               | .append => st.streamedText ++ c.text) 0).value).length
         else st.updateCount) := by
  intro st c
  by_cases hcond : (toDeclUpdates (tryParseJsonFromText
      (match c.kind with
       | .replace => c.text
       | .append => st.streamedText ++ c.text) 0).value).length > st.updateCount
  · exact ⟨by simp [handleStreamChunk, hcond], by simp [handleStreamChunk, hcond]⟩
  · exact ⟨by simp [handleStreamChunk, hcond], by simp [handleStreamChunk, hcond]⟩

/-! ## Claim C6 — deep merge of data deltas -/

theorem mergeFields_cons (ef : List (String × JValue)) (k0 : String) (pv : JValue)
    (rest : List (String × JValue)) :
    mergeFields ef ((k0, pv) :: rest)
      = mergeFields (objInsert ef k0 (mergeStep pv (lookupField ef k0))) rest := by
  rcases pv with _ | _ | b | n | s | ⟨es, ps⟩ | pvf
  · exact mergeFields.eq_3 ef k0 rest _ (fun _ _ h _ => nomatch h)
  · exact mergeFields.eq_3 ef k0 rest _ (fun _ _ h _ => nomatch h)
  · exact mergeFields.eq_3 ef k0 rest _ (fun _ _ h _ => nomatch h)
  · exact mergeFields.eq_3 ef k0 rest _ (fun _ _ h _ => nomatch h)
  · exact mergeFields.eq_3 ef k0 rest _ (fun _ _ h _ => nomatch h)
  · exact mergeFields.eq_3 ef k0 rest _ (fun _ _ h _ => nomatch h)
  · cases hev : lookupField ef k0 with
    | none =>
        rw [mergeFields.eq_3 ef k0 rest _
          (fun _ _ _ he => by rw [hev] at he; exact nomatch he)]
        rfl
    | some ev =>
        cases ev with
        | obj evf =>
            rw [mergeFields.eq_2 ef k0 rest pvf evf hev]
            rfl
        | undef =>
            rw [mergeFields.eq_3 ef k0 rest _
              (fun _ _ _ he => by rw [hev] at he; injection he with h2; exact nomatch h2)]
            rfl
        | null =>
            rw [mergeFields.eq_3 ef k0 rest _
              (fun _ _ _ he => by rw [hev] at he; injection he with h2; exact nomatch h2)]
            rfl
        | bool b2 =>
            rw [mergeFields.eq_3 ef k0 rest _
              (fun _ _ _ he => by rw [hev] at he; injection he with h2; exact nomatch h2)]
            rfl
        | num n2 =>
            rw [mergeFields.eq_3 ef k0 rest _
              (fun _ _ _ he => by rw [hev] at he; injection he with h2; exact nomatch h2)]
            rfl
        | str s2 =>
            rw [mergeFields.eq_3 ef k0 rest _
              (fun _ _ _ he => by rw [hev] at he; injection he with h2; exact nomatch h2)]
            rfl
        | arr es2 ps2 =>
            rw [mergeFields.eq_3 ef k0 rest _
              (fun _ _ _ he => by rw [hev] at he; injection he with h2; exact nomatch h2)]
            rfl

theorem mergeFields_lookup (pf : List (String × JValue)) :
    ∀ (ef : List (String × JValue)) (k : String),
      ((pf.map Prod.fst)).Nodup →
      lookupField (mergeFields ef pf) k =
        match lookupField pf k with
        | none => lookupField ef k
        | some pv => some (mergeStep pv (lookupField ef k)) := by
  induction pf with
  | nil => intro ef k _; rfl
  | cons head rest ih =>
      obtain ⟨k0, pv⟩ := head
      intro ef k hnd
      rw [List.map_cons, List.nodup_cons] at hnd
      obtain ⟨hk0, hrest⟩ := hnd
      rw [mergeFields_cons ef k0 pv rest]
      rw [ih _ k hrest]
      by_cases hk : k = k0
      · rw [hk]
        have hnone : lookupField rest k0 = none := by
          apply lookupField_eq_none
          simpa using hk0
        have hcons : lookupField ((k0, pv) :: rest) k0 = some pv := by
          rw [show lookupField ((k0, pv) :: rest) k0
              = if k0 = k0 then some pv else lookupField rest k0 from rfl, if_pos rfl]
        simp [hnone, hcons, lookupField_objInsert]
      · have hl : lookupField ((k0, pv) :: rest) k = lookupField rest k := by
          rw [show lookupField ((k0, pv) :: rest) k
              = if k0 = k then some pv else lookupField rest k from rfl,
            if_neg (fun hh : k0 = k => hk hh.symm)]
        rw [hl]
        cases hrk : lookupField rest k with
        | none =>
            simp only [lookupField_objInsert, if_neg hk]
        | some pv2 =>
            simp only [lookupField_objInsert, if_neg hk]

/-- C6: merging a data delta is the recursive object merge — for every key,
a key absent from the patch keeps the existing value; when both the patch and
the existing value hold plain objects the results merge recursively; any
other patch value (array, scalar, null, or an object over a non-object
target) replaces the existing value wholesale.  The claim's two aggregation
examples follow: profile merges field-wise, tags is replaced by the later
array. -/
theorem C6_deep_merge_data :
    (∀ (ef pf : List (String × JValue)) (k : String),
        ((pf.map Prod.fst)).Nodup →
        jGetProp (deepMergeData (.obj ef) (.obj pf)) k =
          match lookupField pf k with
          | none => jGetProp (.obj ef) k
          | some pv => mergeStep pv (lookupField ef k))
    ∧ (∀ (pv : JValue) (ev : Option JValue),
        mergeStep pv ev =
          match pv, ev with
          | .obj pvf, some (.obj evf) => deepMergeData (.obj evf) (.obj pvf)
          | _, _ => pv)
    ∧ aggregateDeclUpdates [c6prof1, c6prof2] =
        ⟨[], .obj [("profile", .obj [("first", .str "A"), ("last", .str "B")])]⟩
    ∧ aggregateDeclUpdates [c6tags1, c6tags2] =
        ⟨[], .obj [("tags", .arr [.str "y", .str "z"] [])]⟩ := by
  refine ⟨?_, ?_, rfl, rfl⟩
  case refine_2 =>
    intro pv ev
    rcases ev with _ | ev
    · cases pv <;> rfl
    · cases pv <;> cases ev <;> rfl
  intro ef pf k hnd
  show (lookupField (mergeFields ef pf) k).getD .undef = _
  rw [mergeFields_lookup pf ef k hnd]
  cases hpk : lookupField pf k with
  | none => rfl
  | some pv => rfl

/-- C6 witness: the characterisation applied at the claim's profile example:
both sides hold objects at key profile, so the merge recurses. -/
theorem C6_deep_merge_data_witness :
    jGetProp (deepMergeData (.obj [("profile", .obj [("first", .str "A")])])
        (.obj [("profile", .obj [("last", .str "B")])])) "profile"
      = mergeStep (.obj [("last", .str "B")]) (some (.obj [("first", .str "A")])) :=
  C6_deep_merge_data.1 [("profile", .obj [("first", .str "A")])]
    [("profile", .obj [("last", .str "B")])] "profile" (by decide)

/-! ## Claim C8 — generate's single hard parse error -/

/-- C8, counterexample: with onUpdate supplied, stream the two deltas of the
fence scenario.  The finished text parses to one valid update (y = 2), so
generate resolves — but through the count-equal cache shortcut it returns the
spec cached after the first delta (x = 1), not the aggregated spec of the
finished text.  The claim's "resolves normally to the aggregated spec" is
therefore false as stated. -/
theorem C8_counterexample :
    generate true [c8delta1, c8delta2] = .ok ⟨[], .obj [("x", .num 1)]⟩
    ∧ aggregateDeclUpdates
        (toDeclUpdates (tryParseJsonFromText
          (String.join ([c8delta1, c8delta2].filter (fun d => !d.isEmpty))) 0).value)
        = ⟨[], .obj [("y", .num 2)]⟩
    ∧ generate true [c8delta1, c8delta2] ≠
        .ok (aggregateDeclUpdates
          (toDeclUpdates (tryParseJsonFromText
            (String.join ([c8delta1, c8delta2].filter (fun d => !d.isEmpty))) 0).value)) := by
  refine ⟨rfl, rfl, ?_⟩
  intro h
  rw [show generate true [c8delta1, c8delta2] = .ok ⟨[], .obj [("x", .num 1)]⟩ from rfl,
      show aggregateDeclUpdates
          (toDeclUpdates (tryParseJsonFromText
            (String.join ([c8delta1, c8delta2].filter (fun d => !d.isEmpty))) 0).value)
          = ⟨[], .obj [("y", .num 2)]⟩ from rfl] at h
  simp at h

/-- C8, amended: for a nonempty finished response, generate rejects if and
only if the text does not parse to at least one valid update object — this is
the single parse rejection; and when no onUpdate callback was supplied, a
resolving call returns exactly the aggregated spec of the finished text.
(With a callback, the count-equal cache shortcut may return the spec cached
during streaming, as the counterexample shows.) -/
theorem C8_generate_reject_iff :
    (∀ (onUpdate : Bool) (deltas : List String),
        (String.join (deltas.filter (fun d => !d.isEmpty))).isEmpty = false →
        ((∃ e, generate onUpdate deltas = .error e) ↔
          toDeclUpdates (tryParseJsonFromText
            (String.join (deltas.filter (fun d => !d.isEmpty))) 0).value = []))
    ∧ (∀ (deltas : List String) (spec : DeclSpec),
        generate false deltas = .ok spec →
        spec = aggregateDeclUpdates
          (toDeclUpdates (tryParseJsonFromText
            (String.join (deltas.filter (fun d => !d.isEmpty))) 0).value)) := by
  constructor
  · intro onUpdate deltas hne
    rw [show generate onUpdate deltas = generateFromResponse
        (if onUpdate then (runChunks initStreamState (mkStreamChunks deltas)).1
         else initStreamState)
        (String.join (deltas.filter (fun d => !d.isEmpty))) from by
      simp only [generate, hne, Bool.false_eq_true, if_false]]
    simp only [generateFromResponse]
    by_cases h1 : (toDeclUpdates (tryParseJsonFromText
        (String.join (deltas.filter (fun d => !d.isEmpty))) 0).value).length = 0
    · rw [if_pos h1]
      rw [List.length_eq_zero] at h1
      simp [h1]
    · rw [if_neg h1]
      constructor
      · rintro ⟨e, he⟩
        split_ifs at he
      · intro hnil
        rw [hnil] at h1
        simp at h1
  · intro deltas spec h
    have hg : generate false deltas
        = if (String.join (deltas.filter (fun d => !d.isEmpty))).isEmpty
          then Except.error "No content in OpenAI response"
          else generateFromResponse initStreamState
            (String.join (deltas.filter (fun d => !d.isEmpty))) := rfl
    rw [hg] at h
    by_cases he : (String.join (deltas.filter (fun d => !d.isEmpty))).isEmpty = true
    · rw [if_pos he] at h
      exact nomatch h
    · rw [if_neg he] at h
      simp only [generateFromResponse] at h
      by_cases h1 : (toDeclUpdates (tryParseJsonFromText
          (String.join (deltas.filter (fun d => !d.isEmpty))) 0).value).length = 0
      · rw [if_pos h1] at h
        exact nomatch h
      · rw [if_neg h1] at h
        by_cases h2 : (toDeclUpdates (tryParseJsonFromText
            (String.join (deltas.filter (fun d => !d.isEmpty))) 0).value).length
            = initStreamState.updateCount
        · rw [show initStreamState.updateCount = 0 from rfl] at h2
          exact absurd h2 h1
        · rw [if_neg h2] at h
          injection h with h
          exact h.symm

/-- C8 witness: at a garbage response generate rejects, and at a response
with one complete data update a callback-free generate resolves to the
aggregated spec. -/
theorem C8_generate_reject_iff_witness :
    (∃ e, generate false ["nonsense"] = Except.error e)
    ∧ (⟨[], .obj [("x", .num 1)]⟩ : DeclSpec) = aggregateDeclUpdates
        (toDeclUpdates (tryParseJsonFromText
          (String.join ([c8delta1].filter (fun d => !d.isEmpty))) 0).value) :=
  ⟨(C8_generate_reject_iff.1 false ["nonsense"] rfl).mpr rfl,
   C8_generate_reject_iff.2 [c8delta1] ⟨[], .obj [("x", .num 1)]⟩ rfl⟩

/-! ## Claim C9 — forward references render as absent, not as errors -/

theorem renderDeclNode_present (fuel : Nat) (key : String) (ctx : RenderContext)
    (node : JValue) (t : String)
    (hl : assocLookup ctx.declNodes key = some node)
    (ht : jGetProp node "type" = .str t) :
    isNilNode (renderDeclNode (fuel + 1) key ctx) = false := by
  simp only [renderDeclNode, hl, ht]
  split
  · rfl
  · split <;> rfl

/-- C9: rendering a key absent from the node map yields null at every fuel
(no exception — the renderer is a total function), and rendering a list of
child keys yields exactly the renders of the keys present in the node map,
in order — keys not yet streamed are silently dropped from the rendered
children list (assuming, as for every aggregated node, that stored nodes
carry a string type). -/
theorem C9_forward_reference_tolerance :
    (∀ (fuel : Nat) (key : String) (ctx : RenderContext),
        assocLookup ctx.declNodes key = none →
        renderDeclNode fuel key ctx = .nil)
    ∧ (∀ (fuel : Nat) (keys : List String) (ctx : RenderContext),
        (∀ kv ∈ ctx.declNodes, ∃ t, jGetProp kv.2 "type" = .str t) →
        renderDeclNodes (fuel + 1) keys ctx =
          (keys.filter (fun k => (assocLookup ctx.declNodes k).isSome)).map
            (fun k => renderDeclNode (fuel + 1) k ctx)) := by
  constructor
  · intro fuel key ctx h
    cases fuel with
    | zero => rfl
    | succ f => simp [renderDeclNode, h]
  · intro fuel keys ctx hwt
    induction keys with
    | nil => rfl
    | cons k rest ih =>
        simp only [renderDeclNodes, List.map_cons, List.filter_cons]
        cases hk : assocLookup ctx.declNodes k with
        | none =>
            have hnil : renderDeclNode (fuel + 1) k ctx = .nil := by
              simp [renderDeclNode, hk]
            rw [hnil]
            simp only [isNilNode, Bool.not_true, Bool.false_eq_true, if_false, hk,
              Option.isSome_none]
            simpa [renderDeclNodes] using ih
        | some node =>
            obtain ⟨t, ht⟩ := hwt (k, node) (assocLookup_mem _ _ _ hk)
            have hne := renderDeclNode_present fuel k ctx node t hk ht
            have ih2 : List.filter (fun n => !isNilNode n)
                (List.map (fun k => renderDeclNode (fuel + 1) k ctx) rest)
              = List.map (fun k => renderDeclNode (fuel + 1) k ctx)
                (List.filter (fun k => (assocLookup ctx.declNodes k).isSome) rest) := by
              simpa [renderDeclNodes] using ih
            simp only [hne, Bool.not_false, if_true, hk, Option.isSome_some,
              List.map_cons, ih2]

/-- C9 witness: in a context holding only the Card node "a", the key
"missing" renders as null, and the children list ["a", "missing"] renders to
exactly the render of "a". -/
theorem C9_forward_reference_tolerance_witness :
    renderDeclNode 1 "missing" c9ctx = .nil
    ∧ renderDeclNodes 1 ["a", "missing"] c9ctx =
        (["a", "missing"].filter (fun k => (assocLookup c9ctx.declNodes k).isSome)).map
          (fun k => renderDeclNode 1 k c9ctx) :=
  ⟨C9_forward_reference_tolerance.1 1 "missing" c9ctx rfl,
   C9_forward_reference_tolerance.2 0 ["a", "missing"] c9ctx (by
      intro kv hkv
      simp only [c9ctx, List.mem_singleton] at hkv
      subst hkv
      exact ⟨"Card", rfl⟩)⟩

/-! ## Claim C1 — where the partial-array recovery cuts the stream -/

theorem scanGoC_lastEnd_after_brace (cs : List Char) :
    ∀ (d : Int) (inS esc : Bool) (le : Int) (i : Nat) (st : ScanSt),
      scanGoC true ']' d inS esc le i cs = .ended st →
      st.lastEnd = le ∨ ∃ k, ∃ hk : k < cs.length,
        cs.get ⟨k, hk⟩ = '\x7d' ∧ st.lastEnd = (i : Int) + k + 1 := by
  induction cs with
  | nil =>
      intro d inS esc le i st h
      injection h with h
      exact Or.inl (congrArg ScanSt.lastEnd h).symm
  | cons c rest ih =>
      intro d inS esc le i st h
      have shift : ∀ v : Int,
          (∃ k, ∃ hk : k < rest.length, rest.get ⟨k, hk⟩ = '\x7d'
            ∧ v = ((i + 1 : Nat) : Int) + k + 1) →
          ∃ k, ∃ hk : k < (c :: rest).length, (c :: rest).get ⟨k, hk⟩ = '\x7d'
            ∧ v = (i : Int) + k + 1 := by
        rintro v ⟨k, hk, hc, hv⟩
        refine ⟨k + 1, Nat.succ_lt_succ hk, hc, ?_⟩
        rw [hv]
        push_cast
        ring
      simp only [scanGoC] at h
      split_ifs at h with h1 h2 h3 h4 h5 h6 h7 h8
      all_goals first
        | exact ScanOut.noConfusion h
        | exact (ih _ _ _ _ _ _ h).imp (fun h2 => h2) (fun h2 => shift _ h2)
        | exact (ih _ _ _ _ _ _ h).elim
            (fun h2 => Or.inr ⟨0, Nat.succ_pos rest.length, h8.2.2, by
              rw [h2]
              push_cast
              ring⟩)
            (fun h2 => Or.inr (shift _ h2))

/-- C1, counterexample: on the truncated array [\x7b"a":1\x7d,2,\x7b"x the
fully-closed top-level elements are the object \x7ba: 1\x7d and the bare
number 2, so the claim predicts the value [\x7ba: 1\x7d, 2] with endIndex 10;
the extractor instead drops the complete scalar element and returns
[\x7ba: 1\x7d] with endIndex 8, the offset just past the last depth-1 closing
brace. -/
theorem C1_counterexample :
    tryParseJsonFromText c1CexText 0
      = ⟨some (.arr [.obj [("a", .num 1)]] []), 0, 8⟩
    ∧ tryParseJsonFromText c1CexText 0
      ≠ ⟨some (.arr [.obj [("a", .num 1)], .num 2] []), 0, 10⟩ := by
  have h8 : tryParseJsonFromText c1CexText 0
      = ⟨some (.arr [.obj [("a", .num 1)]] []), 0, 8⟩ := rfl
  refine ⟨h8, fun h => ?_⟩
  rw [h8] at h
  exact absurd (congrArg StreamParseResult.endIndex h) (by decide)

/-- C1, amended: the partial-array recovery does not cut after the last
complete element of any kind — the scan updates its cut offset only when a
closing brace ends a depth-1 object, so whenever the array scan runs out of
input the recorded cut offset is either still the initial sentinel or the
offset just past a literal closing-brace character of the scanned text (never
past a digit or other scalar tail, as the counterexample's dropped number
shows).  The claim's own concrete instance does hold: on the spec's truncated
example text the extractor returns exactly the first two complete update
objects, because both of them are objects. -/
theorem C1_cut_at_last_object_close :
    (∀ (d : Int) (inS esc : Bool) (le : Int) (i : Nat) (cs : List Char) (st : ScanSt),
        scanGoC true ']' d inS esc le i cs = .ended st →
        st.lastEnd = le ∨ ∃ k, ∃ hk : k < cs.length,
          cs.get ⟨k, hk⟩ = '\x7d' ∧ st.lastEnd = (i : Int) + k + 1)
    ∧ tryParseJsonFromText specExampleText 0
        = ⟨some (.arr [specUpd1, specUpd2] []), 0, 54⟩ :=
  ⟨fun d inS esc le i cs st h => scanGoC_lastEnd_after_brace cs d inS esc le i st h, rfl⟩

/-- C1 witness: scanning the single character \x7d from depth 2 closes a
depth-1 object, and the resulting cut offset 1 is indeed just past that
closing brace (the right disjunct at k = 0). -/
theorem C1_cut_at_last_object_close_witness :
    scanGoC true ']' 2 false false (-1) 0 ['\x7d']
      = .ended ⟨1, false, false, 1, 1⟩
    ∧ (ScanSt.lastEnd ⟨1, false, false, 1, 1⟩ = -1
      ∨ ∃ k, ∃ hk : k < [('\x7d' : Char)].length,
          [('\x7d' : Char)].get ⟨k, hk⟩ = '\x7d'
          ∧ ScanSt.lastEnd ⟨1, false, false, 1, 1⟩ = ((0 : Nat) : Int) + k + 1) :=
  ⟨rfl, C1_cut_at_last_object_close.1 2 false false (-1) 0 ['\x7d']
    ⟨1, false, false, 1, 1⟩ rfl⟩

end GenUI
